import Mathlib

/-!
Shallow embedding of the blogicum blog application's visibility and
ownership policy (`blog/views.py`, `blog/forms.py`), together with
spec-side predicates used to compare the implemented behaviour with the
specification's visibility rules.
-/

set_option maxHeartbeats 1000000

namespace Blogicum

/-- A user record: identity with a unique username. -/
structure User where
  id : Nat
  username : String
deriving DecidableEq, Repr

/-- A category record with a slug and a publication flag. -/
structure Category where
  id : Nat
  slug : String
  is_published : Bool
deriving DecidableEq, Repr

/-- A post record: author (user id), optional category (category id),
publication flag and publication timestamp. -/
structure Post where
  id : Nat
  author : Nat
  category : Option Nat
  is_published : Bool
  pub_date : Int
deriving DecidableEq, Repr

/-- A comment record; `post_comment` is the foreign key to the parent post,
as assigned in `add_comment` (`comment.post_comment = post`). -/
structure Comment where
  id : Nat
  author : Nat
  post_comment : Nat
  text : String
deriving DecidableEq, Repr

/-- The backing store visible to the policy layer: ordered lists of records,
standing for the database tables in insertion order. -/
structure DB where
  users : List User
  categories : List Category
  posts : List Post
  comments : List Comment
deriving DecidableEq, Repr

/-- A post together with its `comment_count` annotation
(`annotate(comment_count=Count("comments"))`). -/
structure AnnotatedPost where
  post : Post
  comment_count : Nat
deriving DecidableEq, Repr

/-- `Count("comments")`: the number of comments whose foreign key points at
this post. -/
def comment_count_of (db : DB) (p : Post) : Nat :=
  (db.comments.filter (fun c => c.post_comment == p.id)).length

/-- Attach the `comment_count` annotation to a post. -/
def annotate (db : DB) (p : Post) : AnnotatedPost :=
  ⟨p, comment_count_of db p⟩

/-- Lookup of a category by id, reporting its publication flag; a dangling
foreign key behaves as unpublished (the join produces no row). -/
def categoryPublished (db : DB) (cid : Nat) : Bool :=
  match db.categories.find? (fun c => c.id == cid) with
  | none => false
  | some c => c.is_published

/-- The ORM filter `category__is_published=True`: an inner join on the
category foreign key, so a post with no category is excluded. -/
def category_join_published (db : DB) (p : Post) : Bool :=
  match p.category with
  | none => false
  | some cid => categoryPublished db cid

/-- The descending `pub_date` comparison used by `order_by("-pub_date")`. -/
def pubDateGE (a b : AnnotatedPost) : Prop :=
  b.post.pub_date ≤ a.post.pub_date

/-- The strict descending `pub_date` comparison. -/
def pubDateGT (a b : AnnotatedPost) : Prop :=
  b.post.pub_date < a.post.pub_date

instance : DecidableRel pubDateGE := fun a b => Int.decLe _ _

instance : DecidableRel pubDateGT := fun a b => Int.decLt _ _

instance : IsTotal AnnotatedPost pubDateGE :=
  ⟨fun a b => le_total b.post.pub_date a.post.pub_date⟩

instance : IsTrans AnnotatedPost pubDateGE :=
  ⟨fun _ _ _ h1 h2 => le_trans h2 h1⟩

instance : IsAntisymm AnnotatedPost pubDateGT :=
  ⟨fun _ _ h1 h2 => absurd (lt_trans h1 h2) (lt_irrefl _)⟩

/-- `order_by("-pub_date")`: a stable sort of the records by descending
`pub_date`, preserving the backing store's relative order of ties. -/
def order_by_pub_date_desc (l : List AnnotatedPost) : List AnnotatedPost :=
  List.insertionSort pubDateGE l

/-- `IndexListView.get_queryset` before ordering: posts with
`pub_date__lt=now`, `is_published=True`, `category__is_published=True`,
annotated with their comment counts. -/
def indexRecords (db : DB) (now : Int) : List AnnotatedPost :=
  (db.posts.filter (fun p =>
    decide (p.pub_date < now) && p.is_published && category_join_published db p)).map
    (annotate db)

/-- `IndexListView.get_queryset`. -/
def indexGetQueryset (db : DB) (now : Int) : List AnnotatedPost :=
  order_by_pub_date_desc (indexRecords db now)

/-- `ProfileListView.get_queryset` before ordering:
`get_object_or_404(User, username=...)`, then all of that author's posts
with no visibility filter; `none` is the 404 outcome. -/
def profileRecords (db : DB) (username : String) : Option (List AnnotatedPost) :=
  (db.users.find? (fun u => u.username == username)).map (fun author =>
    (db.posts.filter (fun p => p.author == author.id)).map (annotate db))

/-- `ProfileListView.get_queryset`. -/
def profileGetQueryset (db : DB) (username : String) : Option (List AnnotatedPost) :=
  (profileRecords db username).map order_by_pub_date_desc

/-- `CategoryListView.get_queryset` before ordering:
`get_object_or_404(Category, slug=..., is_published=True)`, then the
category's posts with `pub_date__lt=now`, `is_published=True`; `none` is
the 404 outcome. -/
def categoryRecords (db : DB) (now : Int) (slug : String) : Option (List AnnotatedPost) :=
  (db.categories.find? (fun c => c.slug == slug && c.is_published)).map (fun cat =>
    (db.posts.filter (fun p =>
      p.category == some cat.id && decide (p.pub_date < now) && p.is_published)).map
      (annotate db))

/-- `CategoryListView.get_queryset`. -/
def categoryGetQueryset (db : DB) (now : Int) (slug : String) :
    Option (List AnnotatedPost) :=
  (categoryRecords db now slug).map order_by_pub_date_desc

/-- The module-level helper `get_general_posts_filter` (not used by any
view): `is_published=True`, `pub_date__lte=now` (inclusive),
`category__is_published=True`, annotated and ordered. -/
def get_general_posts_filter (db : DB) (now : Int) : List AnnotatedPost :=
  order_by_pub_date_desc
    ((db.posts.filter (fun p =>
      p.is_published && decide (p.pub_date ≤ now) && category_join_published db p)).map
      (annotate db))

/-- The selection criterion of a list view: all posts, one category's posts,
or one author's posts. -/
inductive Scope where
  | index : Scope
  | category (slug : String) : Scope
  | profile (username : String) : Scope
deriving DecidableEq, Repr

/-- The records feeding a list view, before ordering. -/
def scopeRecords (db : DB) (now : Int) (scope : Scope) : Option (List AnnotatedPost) :=
  match scope with
  | .index => some (indexRecords db now)
  | .category slug => categoryRecords db now slug
  | .profile username => profileRecords db username

/-- The ordered listing produced by the list view selected by `scope`;
`none` is the 404 outcome of the scope lookup. -/
def listVisiblePosts (db : DB) (now : Int) (scope : Scope) :
    Option (List AnnotatedPost) :=
  (scopeRecords db now scope).map order_by_pub_date_desc

/-- `PostDetailView.get_object`: fetch the post by id (404 when absent),
then `if not post.is_published and post.author != request.user: raise
Http404`; `user = none` is an anonymous viewer. -/
def postDetailGetObject (db : DB) (user : Option Nat) (post_id : Nat) : Option Post :=
  match db.posts.find? (fun p => p.id == post_id) with
  | none => none
  | some post =>
    if post.is_published = false ∧ user ≠ some post.author then none else some post

/-- The outcome of an update/delete request. -/
inductive ModifyOutcome where
  | ok : ModifyOutcome
  | notFound : ModifyOutcome
  | loginRedirect : ModifyOutcome
  | redirectDetail (post_id : Nat) : ModifyOutcome
deriving DecidableEq, Repr

/-- `PostUpdateView`: `LoginRequiredMixin`, then `dispatch` (404 when the
post is absent, redirect to the detail page when the actor is not the
author), then `get_object` (`if post.is_published and post.author ==
request.user: return post else Http404`). -/
def postUpdateOutcome (db : DB) (user : Option Nat) (post_id : Nat) : ModifyOutcome :=
  match user with
  | none => .loginRedirect
  | some u =>
    match db.posts.find? (fun p => p.id == post_id) with
    | none => .notFound
    | some post =>
      if post.author ≠ u then .redirectDetail post_id
      else if post.is_published then .ok else .notFound

/-- `PostDeleteView`: as `PostUpdateView` but `dispatch` raises `Http404`
for a non-author instead of redirecting. -/
def postDeleteOutcome (db : DB) (user : Option Nat) (post_id : Nat) : ModifyOutcome :=
  match user with
  | none => .loginRedirect
  | some u =>
    match db.posts.find? (fun p => p.id == post_id) with
    | none => .notFound
    | some post =>
      if post.author ≠ u then .notFound
      else if post.is_published then .ok else .notFound

/-- `CommentUpdateView.dispatch`: 404 when the comment is absent, redirect
to the post detail page when the actor is not the author, otherwise the
update proceeds. -/
def commentUpdateOutcome (db : DB) (user : Option Nat) (post_id comment_id : Nat) :
    ModifyOutcome :=
  match user with
  | none => .loginRedirect
  | some u =>
    match db.comments.find? (fun c => c.id == comment_id) with
    | none => .notFound
    | some c =>
      if u ≠ c.author then .redirectDetail post_id else .ok

/-- `CommentDeleteView.dispatch`: as `CommentUpdateView` but a non-author
gets `Http404`. -/
def commentDeleteOutcome (db : DB) (user : Option Nat) (post_id comment_id : Nat) :
    ModifyOutcome :=
  match user with
  | none => .loginRedirect
  | some u =>
    match db.comments.find? (fun c => c.id == comment_id) with
    | none => .notFound
    | some c =>
      if u ≠ c.author then .notFound else .ok

/-- The data a client may submit to the comment form: the text field, plus
author/post values that `CommentForm` (fields = `('text',)`) never reads. -/
structure CommentFormData where
  text : String
  author_field : Option Nat
  post_field : Option Nat
deriving DecidableEq, Repr

/-- Modelled from the spec: the Comment model (absent from the sources; only
`forms.py` and `views.py` are present) has a required `text` field, so the
bound `CommentForm` is valid iff the submitted text is non-blank. -/
def commentFormIsValid (d : CommentFormData) : Bool :=
  d.text.toList.any (fun ch => !(ch == ' '))

/-- The outcome of an `add_comment` request. -/
inductive AddCommentResult where
  | loginRedirect : AddCommentResult
  | notFound : AddCommentResult
  | redirect (post_id : Nat) : AddCommentResult
deriving DecidableEq, Repr

/-- The `add_comment` view: `login_required`, `get_object_or_404(Post)`,
then save the comment (author and parent post forced from the request) when
the form is valid, and redirect to the post detail page either way.
`newId` stands for the primary key the store assigns to the new row. -/
def add_comment (db : DB) (user : Option Nat) (post_id : Nat)
    (formData : CommentFormData) (newId : Nat) : DB × AddCommentResult :=
  match user with
  | none => (db, .loginRedirect)
  | some u =>
    match db.posts.find? (fun p => p.id == post_id) with
    | none => (db, .notFound)
    | some post =>
      if commentFormIsValid formData then
        ({ db with comments := db.comments ++
            [{ id := newId, author := u, post_comment := post.id, text := formData.text }] },
         .redirect post_id)
      else
        (db, .redirect post_id)

/-- Spec-side public-visibility predicate, following the specification's
words: `is_published AND pub_date <= now AND (no category OR
category.is_published)`. -/
def publiclyVisibleSpec (db : DB) (p : Post) (now : Int) : Bool :=
  p.is_published && decide (p.pub_date ≤ now) &&
    (match p.category with
     | none => true
     | some cid => categoryPublished db cid)

/-- Spec-side `isVisible`: owner bypass, otherwise the public-visibility
predicate. -/
def isVisibleSpec (db : DB) (viewer : Option Nat) (p : Post) (now : Int) : Bool :=
  (viewer == some p.author) || publiclyVisibleSpec db p now

/-! ### Helper lemmas -/

lemma mem_order_by {ap : AnnotatedPost} {l : List AnnotatedPost} :
    ap ∈ order_by_pub_date_desc l ↔ ap ∈ l :=
  (List.perm_insertionSort pubDateGE l).mem_iff

lemma comment_count_of_mem_annotate {db : DB} {L : List Post} {ap : AnnotatedPost}
    (h : ap ∈ L.map (annotate db)) :
    ap.comment_count = (db.comments.filter (fun c => c.post_comment == ap.post.id)).length := by
  obtain ⟨p, _, rfl⟩ := List.mem_map.mp h
  rfl

lemma category_join_published_spec {db : DB} {p : Post}
    (h : category_join_published db p = true) :
    (match p.category with
     | none => true
     | some cid => categoryPublished db cid) = true := by
  unfold category_join_published at h
  cases hc : p.category with
  | none => rfl
  | some cid => rw [hc] at h; exact h

/-! ### C1: single-post detail retrieval -/

/-- Database for the C1 counterexample: a published but future-dated post. -/
def c1db : DB :=
  ⟨[⟨1, "alice"⟩, ⟨2, "bob"⟩], [], [⟨1, 1, none, true, 5⟩], []⟩

/-- C1 (counterexample): post 1 is published but future-dated (`pub_date = 5`,
`now = 3`) and viewed by a non-author (user 2), so the spec's visibility
predicate is false; yet the detail view returns the post instead of a
"not found" outcome. -/
theorem postDetail_future_post_counterexample :
    postDetailGetObject c1db (some 2) 1 = some ⟨1, 1, none, true, 5⟩ ∧
    (some 2 : Option Nat) ≠ some (1 : Nat) ∧
    isVisibleSpec c1db (some 2) ⟨1, 1, none, true, 5⟩ 3 = false := by
  decide

/-- C1 (amended): the detail view returns the post iff it exists and is
published or requested by its author; `pub_date` and the category's
publication flag are not checked. -/
theorem postDetail_characterization (db : DB) (user : Option Nat) (post_id : Nat)
    (p : Post) :
    postDetailGetObject db user post_id = some p ↔
      db.posts.find? (fun q => q.id == post_id) = some p ∧
        (p.is_published = true ∨ user = some p.author) := by
  unfold postDetailGetObject
  cases h : db.posts.find? (fun q => q.id == post_id) with
  | none => simp
  | some q =>
    dsimp only
    by_cases hc : q.is_published = false ∧ user ≠ some q.author
    · rw [if_pos hc]
      constructor
      · intro h'; cases h'
      · rintro ⟨hq, hor⟩
        obtain rfl : q = p := by injection hq
        rcases hor with h1 | h2
        · rw [hc.1] at h1; cases h1
        · exact absurd h2 hc.2
    · rw [if_neg hc]
      push_neg at hc
      constructor
      · intro h'
        obtain rfl : q = p := by injection h'
        refine ⟨rfl, ?_⟩
        by_cases hq : q.is_published = true
        · exact Or.inl hq
        · exact Or.inr (hc (by simpa using hq))
      · rintro ⟨hq, _⟩
        exact hq

/-! ### C3: update and delete authorization -/

/-- Database for the C3 counterexample: an unpublished post owned by user 1. -/
def c3db : DB :=
  ⟨[⟨1, "alice"⟩], [], [⟨7, 1, none, false, 0⟩], []⟩

/-- C3 (counterexample): user 1 is the author of (unpublished) post 7, yet
both the update and the delete views report "not found" instead of letting
the author modify their own post. -/
theorem postModify_unpublished_owner_counterexample :
    c3db.posts.find? (fun q => q.id == 7) = some ⟨7, 1, none, false, 0⟩ ∧
    postUpdateOutcome c3db (some 1) 7 = ModifyOutcome.notFound ∧
    postDeleteOutcome c3db (some 1) 7 = ModifyOutcome.notFound := by
  refine ⟨by rfl, by rfl, by rfl⟩

/-- C3 (amended): a post update/delete succeeds iff the actor is
authenticated, is the author, and the post is published (an author's
unpublished post yields "not found"); a comment update/delete succeeds iff
the actor is authenticated and is the author; every anonymous or non-author
attempt is denied. -/
theorem canModify_characterization (db : DB) (u post_id pid comment_id : Nat)
    (p : Post) (c : Comment)
    (hp : db.posts.find? (fun q => q.id == post_id) = some p)
    (hc : db.comments.find? (fun q => q.id == comment_id) = some c) :
    (postUpdateOutcome db (some u) post_id = .ok ↔ p.author = u ∧ p.is_published = true) ∧
    (postDeleteOutcome db (some u) post_id = .ok ↔ p.author = u ∧ p.is_published = true) ∧
    (commentUpdateOutcome db (some u) pid comment_id = .ok ↔ c.author = u) ∧
    (commentDeleteOutcome db (some u) pid comment_id = .ok ↔ c.author = u) ∧
    postUpdateOutcome db none post_id ≠ .ok ∧
    postDeleteOutcome db none post_id ≠ .ok ∧
    commentUpdateOutcome db none pid comment_id ≠ .ok ∧
    commentDeleteOutcome db none pid comment_id ≠ .ok := by
  unfold postUpdateOutcome postDeleteOutcome commentUpdateOutcome commentDeleteOutcome
  rw [hp, hc]
  dsimp only
  refine ⟨?_, ?_, ?_, ?_, by simp, by simp, by simp, by simp⟩ <;>
    · split_ifs <;> simp_all <;> omega

/-- Witness for `canModify_characterization` at a concrete store. -/
def c3wdb : DB :=
  ⟨[⟨1, "alice"⟩, ⟨2, "bob"⟩], [], [⟨1, 1, none, true, 0⟩], [⟨4, 2, 1, "hi"⟩]⟩

theorem canModify_characterization_witness :
    (postUpdateOutcome c3wdb (some 1) 1 = .ok ↔ (1 : Nat) = 1 ∧ (true : Bool) = true) ∧
    (postDeleteOutcome c3wdb (some 1) 1 = .ok ↔ (1 : Nat) = 1 ∧ (true : Bool) = true) ∧
    (commentUpdateOutcome c3wdb (some 1) 1 4 = .ok ↔ (2 : Nat) = 1) ∧
    (commentDeleteOutcome c3wdb (some 1) 1 4 = .ok ↔ (2 : Nat) = 1) ∧
    postUpdateOutcome c3wdb none 1 ≠ .ok ∧
    postDeleteOutcome c3wdb none 1 ≠ .ok ∧
    commentUpdateOutcome c3wdb none 1 4 ≠ .ok ∧
    commentDeleteOutcome c3wdb none 1 4 ≠ .ok :=
  canModify_characterization c3wdb 1 1 1 4 ⟨1, 1, none, true, 0⟩ ⟨4, 2, 1, "hi"⟩ rfl rfl

/-! ### C6, C9, C10: the add_comment view -/

/-- C6: commenting is gated only by authentication: an anonymous request is
rejected with no state change, while an authenticated request on any
existing post — with no visibility condition at all — is processed and
redirected to the post's detail page, appending the comment when the form
is valid. -/
theorem canComment_iff_authenticated (db : DB) (u post_id newId : Nat)
    (f : CommentFormData) (p : Post)
    (hp : db.posts.find? (fun q => q.id == post_id) = some p) :
    add_comment db none post_id f newId = (db, .loginRedirect) ∧
    (add_comment db (some u) post_id f newId).2 = .redirect post_id ∧
    (commentFormIsValid f = true →
      (add_comment db (some u) post_id f newId).1.comments =
        db.comments ++ [⟨newId, u, p.id, f.text⟩]) := by
  unfold add_comment
  rw [hp]
  dsimp only
  refine ⟨rfl, ?_, ?_⟩
  · split_ifs <;> rfl
  · intro hv
    rw [if_pos hv]

/-- Witness for `canComment_iff_authenticated`: user 2 comments on post 3,
which is unpublished (not visible to user 2), and the comment is accepted. -/
def c6db : DB :=
  ⟨[⟨1, "alice"⟩, ⟨2, "bob"⟩], [], [⟨3, 1, none, false, 0⟩], []⟩

theorem canComment_iff_authenticated_witness :
    add_comment c6db none 3 ⟨"hi", some 1, some 2⟩ 9 = (c6db, .loginRedirect) ∧
    (add_comment c6db (some 2) 3 ⟨"hi", some 1, some 2⟩ 9).2 = .redirect 3 ∧
    (commentFormIsValid ⟨"hi", some 1, some 2⟩ = true →
      (add_comment c6db (some 2) 3 ⟨"hi", some 1, some 2⟩ 9).1.comments =
        c6db.comments ++ [⟨9, 2, 3, "hi"⟩]) :=
  canComment_iff_authenticated c6db 2 3 9 ⟨"hi", some 1, some 2⟩
    ⟨3, 1, none, false, 0⟩ rfl

/-- C9: when the submitted form is invalid, `add_comment` leaves the store
unchanged and still redirects to the post's detail page, exactly as in the
success case. -/
theorem add_comment_invalid_is_noop (db : DB) (u post_id newId : Nat)
    (f : CommentFormData) (p : Post)
    (hp : db.posts.find? (fun q => q.id == post_id) = some p)
    (hinv : commentFormIsValid f = false) :
    add_comment db (some u) post_id f newId = (db, .redirect post_id) := by
  unfold add_comment
  rw [hp]
  dsimp only
  rw [if_neg (by simp [hinv])]

/-- Witness for `add_comment_invalid_is_noop`: blank comment text. -/
def c9db : DB :=
  ⟨[⟨1, "alice"⟩], [], [⟨5, 1, none, true, 0⟩], [⟨1, 1, 5, "old"⟩]⟩

theorem add_comment_invalid_is_noop_witness :
    add_comment c9db (some 1) 5 ⟨"  ", none, none⟩ 2 = (c9db, .redirect 5) :=
  add_comment_invalid_is_noop c9db 1 5 2 ⟨"  ", none, none⟩
    ⟨5, 1, none, true, 0⟩ rfl (by decide)

/-- C10: a comment created through `add_comment` gets its author from the
request's user and its parent post from the URL's `post_id`, for every
author/post value smuggled into the submitted form data. -/
theorem add_comment_forces_author_and_post (db : DB) (u post_id newId : Nat)
    (text : String) (af pf : Option Nat) (p : Post)
    (hp : db.posts.find? (fun q => q.id == post_id) = some p)
    (hv : commentFormIsValid ⟨text, af, pf⟩ = true) :
    (add_comment db (some u) post_id ⟨text, af, pf⟩ newId).1.comments =
      db.comments ++ [{ id := newId, author := u, post_comment := post_id, text := text }] ∧
    (add_comment db (some u) post_id ⟨text, af, pf⟩ newId).2 = .redirect post_id := by
  have hid : p.id = post_id := by
    have := List.find?_some hp
    simpa using this
  unfold add_comment
  rw [hp]
  dsimp only
  rw [if_pos hv]
  exact ⟨by rw [hid], rfl⟩

/-- Witness for `add_comment_forces_author_and_post`: the form data carries
a foreign author (1) and post (8), both ignored. -/
def c10db : DB :=
  ⟨[⟨1, "alice"⟩, ⟨2, "bob"⟩], [], [⟨4, 1, none, true, 0⟩, ⟨8, 2, none, true, 0⟩], []⟩

theorem add_comment_forces_author_and_post_witness :
    (add_comment c10db (some 2) 4 ⟨"txt", some 1, some 8⟩ 1).1.comments =
      c10db.comments ++ [{ id := 1, author := 2, post_comment := 4, text := "txt" }] ∧
    (add_comment c10db (some 2) 4 ⟨"txt", some 1, some 8⟩ 1).2 = .redirect 4 :=
  add_comment_forces_author_and_post c10db 2 4 1 "txt" (some 1) (some 8)
    ⟨4, 1, none, true, 0⟩ rfl (by decide)

/-! ### C8: comment_count annotation -/

/-- C8: every post returned by a list view (index, category or profile)
carries a `comment_count` equal to the number of comment records whose
parent post it is. -/
theorem listing_comment_count (db : DB) (now : Int) (scope : Scope)
    (l : List AnnotatedPost) (ap : AnnotatedPost)
    (hl : listVisiblePosts db now scope = some l) (hap : ap ∈ l) :
    ap.comment_count =
      (db.comments.filter (fun c => c.post_comment == ap.post.id)).length := by
  unfold listVisiblePosts at hl
  cases hs : scopeRecords db now scope with
  | none => rw [hs] at hl; cases hl
  | some pre =>
    rw [hs] at hl
    obtain rfl : order_by_pub_date_desc pre = l := by
      simpa using hl
    have hmem : ap ∈ pre := mem_order_by.mp hap
    cases scope with
    | index =>
      unfold scopeRecords indexRecords at hs
      obtain rfl : _ = pre := by simpa using hs
      exact comment_count_of_mem_annotate hmem
    | category slug =>
      unfold scopeRecords categoryRecords at hs
      obtain ⟨cat, -, rfl⟩ := Option.map_eq_some'.mp hs
      exact comment_count_of_mem_annotate hmem
    | profile username =>
      unfold scopeRecords profileRecords at hs
      obtain ⟨author, -, rfl⟩ := Option.map_eq_some'.mp hs
      exact comment_count_of_mem_annotate hmem

/-- Witness for `listing_comment_count`: post 1 has two comments (ids 1, 2);
comment 3 belongs to another post. -/
def c8db : DB :=
  ⟨[⟨1, "alice"⟩], [⟨1, "cat", true⟩], [⟨1, 1, some 1, true, 0⟩],
   [⟨1, 1, 1, "x"⟩, ⟨2, 1, 1, "y"⟩, ⟨3, 1, 99, "z"⟩]⟩

theorem listing_comment_count_witness :
    (⟨⟨1, 1, some 1, true, 0⟩, 2⟩ : AnnotatedPost).comment_count =
      (c8db.comments.filter
        (fun c => c.post_comment == (⟨⟨1, 1, some 1, true, 0⟩, 2⟩ : AnnotatedPost).post.id)).length :=
  listing_comment_count c8db 5 .index [⟨⟨1, 1, some 1, true, 0⟩, 2⟩]
    ⟨⟨1, 1, some 1, true, 0⟩, 2⟩ (by decide) (by decide)

/-! ### C4: the publication-time cutoff -/

/-- Database for the C4 counterexample: a published post in a published
category with `pub_date` exactly equal to `now = 5`. -/
def c4db : DB :=
  ⟨[⟨1, "alice"⟩], [⟨2, "tech", true⟩], [⟨4, 1, some 2, true, 5⟩], []⟩

/-- C4 (counterexample): the post is publicly visible per the spec predicate
at `now = 5` (`pub_date = now`), yet both the index and the category listing
are empty — the views' cutoff is strict. -/
theorem cutoff_now_excluded_counterexample :
    publiclyVisibleSpec c4db ⟨4, 1, some 2, true, 5⟩ 5 = true ∧
    indexGetQueryset c4db 5 = [] ∧
    categoryGetQueryset c4db 5 "tech" = some [] := by
  decide

/-- C4 (amended): the index and category listings use a strict
`pub_date < now` cutoff, so a post with `pub_date` exactly `now` is
excluded from both, while the unused helper `get_general_posts_filter`
uses the inclusive cutoff and includes it. -/
theorem cutoff_strict_in_views (db : DB) (now : Int) (p : Post)
    (hpub : p.is_published = true)
    (hcat : category_join_published db p = true)
    (hnow : p.pub_date = now) :
    (∀ ap ∈ indexGetQueryset db now, ap.post ≠ p) ∧
    (∀ slug l, categoryGetQueryset db now slug = some l → ∀ ap ∈ l, ap.post ≠ p) ∧
    (p ∈ db.posts → annotate db p ∈ get_general_posts_filter db now) := by
  refine ⟨?_, ?_, ?_⟩
  · intro ap hap
    have hmem := mem_order_by.mp hap
    obtain ⟨q, hq, rfl⟩ := List.mem_map.mp hmem
    have hfq := (List.mem_filter.mp hq).2
    intro hpost
    have hlt : q.pub_date < now := by
      simp only [Bool.and_eq_true, decide_eq_true_eq] at hfq
      exact hfq.1.1
    have hqp : q = p := hpost
    rw [hqp, hnow] at hlt
    exact lt_irrefl _ hlt
  · intro slug l hl ap hap
    unfold categoryGetQueryset categoryRecords at hl
    obtain ⟨cat, -, rfl⟩ := Option.map_eq_some'.mp (by simpa [Option.map_map] using hl)
    have hmem := mem_order_by.mp hap
    obtain ⟨q, hq, rfl⟩ := List.mem_map.mp hmem
    have hfq := (List.mem_filter.mp hq).2
    intro hpost
    have hlt : q.pub_date < now := by
      simp only [Bool.and_eq_true, decide_eq_true_eq] at hfq
      exact hfq.1.2
    have hqp : q = p := hpost
    rw [hqp, hnow] at hlt
    exact lt_irrefl _ hlt
  · intro hmem
    unfold get_general_posts_filter
    refine mem_order_by.mpr (List.mem_map.mpr ⟨p, ?_, rfl⟩)
    refine List.mem_filter.mpr ⟨hmem, ?_⟩
    simp only [Bool.and_eq_true, decide_eq_true_eq]
    exact ⟨⟨hpub, le_of_eq hnow⟩, hcat⟩

/-- Witness for `cutoff_strict_in_views`: a post dated strictly at `now` in
a published category, present in the store. -/
def c4wdb : DB :=
  ⟨[⟨1, "alice"⟩], [⟨9, "news", true⟩], [⟨11, 1, some 9, true, 7⟩], []⟩

theorem cutoff_strict_in_views_witness :
    (∀ ap ∈ indexGetQueryset c4wdb 7, ap.post ≠ ⟨11, 1, some 9, true, 7⟩) ∧
    (∀ slug l, categoryGetQueryset c4wdb 7 slug = some l →
      ∀ ap ∈ l, ap.post ≠ ⟨11, 1, some 9, true, 7⟩) ∧
    ((⟨11, 1, some 9, true, 7⟩ : Post) ∈ c4wdb.posts →
      annotate c4wdb ⟨11, 1, some 9, true, 7⟩ ∈ get_general_posts_filter c4wdb 7) :=
  cutoff_strict_in_views c4wdb 7 ⟨11, 1, some 9, true, 7⟩ (by decide) (by decide) (by decide)

/-! ### C5: the category list view -/

/-- Database for the C5 counterexample: a published category whose only post
is dated exactly `now = 10`. -/
def c5db : DB :=
  ⟨[⟨1, "alice"⟩], [⟨3, "life", true⟩], [⟨6, 1, some 3, true, 10⟩], []⟩

/-- C5 (counterexample): post 6 satisfies the spec's public-visibility
predicate at `now = 10`, yet the listing of its (published) category is
empty, so the listing is not "exactly the posts satisfying the predicate". -/
theorem category_listing_now_counterexample :
    publiclyVisibleSpec c5db ⟨6, 1, some 3, true, 10⟩ 10 = true ∧
    categoryGetQueryset c5db 10 "life" = some [] := by
  decide

/-- C5 (amended): an unpublished (or missing) category slug yields "not
found" for every viewer; for a published category the listing contains
exactly the category's posts with `is_published = true` and `pub_date`
strictly before `now`. -/
theorem category_view_characterization (db : DB) (now : Int) (slug : String) :
    ((∀ c ∈ db.categories, c.slug = slug → c.is_published = false) →
      categoryGetQueryset db now slug = none) ∧
    (∀ cat l,
      db.categories.find? (fun c => c.slug == slug && c.is_published) = some cat →
      categoryGetQueryset db now slug = some l →
      ∀ ap, ap ∈ l ↔ ∃ p ∈ db.posts,
        p.category = some cat.id ∧ p.is_published = true ∧ p.pub_date < now ∧
        ap = annotate db p) := by
  constructor
  · intro hnone
    have hfind : db.categories.find? (fun c => c.slug == slug && c.is_published) = none := by
      rw [List.find?_eq_none]
      intro c hc
      simp only [Bool.and_eq_true, beq_iff_eq, not_and]
      intro hslug
      rw [hnone c hc hslug]
      simp
    unfold categoryGetQueryset categoryRecords
    rw [hfind]
    rfl
  · intro cat l hfind hl ap
    unfold categoryGetQueryset categoryRecords at hl
    rw [hfind] at hl
    obtain rfl : _ = l := by simpa using hl
    rw [mem_order_by, List.mem_map]
    constructor
    · rintro ⟨p, hp, rfl⟩
      have hf := List.mem_filter.mp hp
      simp only [Bool.and_eq_true, beq_iff_eq, decide_eq_true_eq] at hf
      exact ⟨p, hf.1, hf.2.1.1, hf.2.2, hf.2.1.2, rfl⟩
    · rintro ⟨p, hp, hcat, hpub, hlt, rfl⟩
      refine ⟨p, List.mem_filter.mpr ⟨hp, ?_⟩, rfl⟩
      simp only [Bool.and_eq_true, beq_iff_eq, decide_eq_true_eq]
      exact ⟨⟨hcat, hlt⟩, hpub⟩

/-- Witness for `category_view_characterization`: the hidden category slug
is refused, and the published category's listing is characterized. -/
def c5wdb : DB :=
  ⟨[⟨1, "alice"⟩], [⟨1, "hidden", false⟩, ⟨2, "open", true⟩],
   [⟨1, 1, some 2, true, 0⟩, ⟨2, 1, some 2, true, 99⟩], []⟩

theorem category_view_characterization_witness :
    categoryGetQueryset c5wdb 10 "hidden" = none ∧
    ((⟨⟨1, 1, some 2, true, 0⟩, 0⟩ : AnnotatedPost) ∈
        [(⟨⟨1, 1, some 2, true, 0⟩, 0⟩ : AnnotatedPost)] ↔
      ∃ p ∈ c5wdb.posts, p.category = some 2 ∧ p.is_published = true ∧
        p.pub_date < 10 ∧ (⟨⟨1, 1, some 2, true, 0⟩, 0⟩ : AnnotatedPost) = annotate c5wdb p) :=
  ⟨(category_view_characterization c5wdb 10 "hidden").1 (by decide),
   (category_view_characterization c5wdb 10 "open").2 ⟨2, "open", true⟩
     [⟨⟨1, 1, some 2, true, 0⟩, 0⟩] (by decide) (by decide)
     ⟨⟨1, 1, some 2, true, 0⟩, 0⟩⟩

/-! ### C2: which posts appear in listings -/

/-- In a store whose category ids are distinct, looking a category up by its
own id finds it. -/
lemma find?_id_of_nodup {l : List Category} {c : Category}
    (hnd : (l.map (fun x => x.id)).Nodup) (hc : c ∈ l) :
    l.find? (fun x => x.id == c.id) = some c := by
  induction l with
  | nil => cases hc
  | cons a t ih =>
    rcases List.mem_cons.mp hc with rfl | hmem
    · rw [List.find?_cons_of_pos _ (by simp)]
    · have hnd' : a.id ∉ t.map (fun x => x.id) ∧ (t.map (fun x => x.id)).Nodup := by
        rw [List.map_cons, List.nodup_cons] at hnd
        exact hnd
      have hne : ¬(a.id == c.id) = true := by
        simp only [beq_iff_eq]
        intro h
        exact hnd'.1 (h ▸ List.mem_map_of_mem (fun x => x.id) hmem)
      rw [show List.find? (fun x => x.id == c.id) (a :: t) =
            List.find? (fun x => x.id == c.id) t from List.find?_cons_of_neg t hne]
      exact ih hnd'.2 hmem

/-- Database for the C2 counterexample: an unpublished post by user 1. -/
def c2db : DB :=
  ⟨[⟨1, "alice"⟩, ⟨2, "bob"⟩], [], [⟨8, 1, none, false, 0⟩], []⟩

/-- C2 (counterexample): the profile listing for "alice" contains her
unpublished post 8 although viewer 2 (not the author) fails
`isVisible` for it — the profile view applies no visibility filter. -/
theorem profile_shows_hidden_counterexample :
    listVisiblePosts c2db 10 (.profile "alice") = some [⟨⟨8, 1, none, false, 0⟩, 0⟩] ∧
    (8 : Nat) ≠ 2 ∧
    isVisibleSpec c2db (some 2) ⟨8, 1, none, false, 0⟩ 10 = false := by
  decide

/-- C2 (amended): the index and category listings contain only posts
satisfying the spec's public-visibility predicate, but the profile listing
of a user contains all of that user's posts, for every viewer — including
posts that are not publicly visible. -/
theorem listing_visibility (db : DB) (now : Int) :
    (∀ ap ∈ indexGetQueryset db now, publiclyVisibleSpec db ap.post now = true) ∧
    (∀ slug l, (db.categories.map (fun c => c.id)).Nodup →
      categoryGetQueryset db now slug = some l →
      ∀ ap ∈ l, publiclyVisibleSpec db ap.post now = true) ∧
    (∀ username author l,
      db.users.find? (fun u => u.username == username) = some author →
      profileGetQueryset db username = some l →
      ∀ p ∈ db.posts, p.author = author.id → annotate db p ∈ l) := by
  refine ⟨?_, ?_, ?_⟩
  · intro ap hap
    obtain ⟨q, hq, rfl⟩ := List.mem_map.mp (mem_order_by.mp hap)
    have hfq := (List.mem_filter.mp hq).2
    simp only [Bool.and_eq_true, decide_eq_true_eq] at hfq
    unfold publiclyVisibleSpec
    simp only [Bool.and_eq_true, decide_eq_true_eq]
    exact ⟨⟨hfq.1.2, le_of_lt hfq.1.1⟩, category_join_published_spec hfq.2⟩
  · intro slug l hnd hl ap hap
    unfold categoryGetQueryset categoryRecords at hl
    cases hfind : db.categories.find? (fun c => c.slug == slug && c.is_published) with
    | none => rw [hfind] at hl; cases hl
    | some cat =>
      rw [hfind] at hl
      obtain rfl : _ = l := by simpa using hl
      obtain ⟨q, hq, rfl⟩ := List.mem_map.mp (mem_order_by.mp hap)
      have hfq := (List.mem_filter.mp hq).2
      simp only [Bool.and_eq_true, beq_iff_eq, decide_eq_true_eq] at hfq
      have hcatmem : cat ∈ db.categories := List.mem_of_find?_eq_some hfind
      have hcatpub : cat.is_published = true := by
        have := List.find?_some hfind
        simp only [Bool.and_eq_true, beq_iff_eq] at this
        exact this.2
      unfold publiclyVisibleSpec
      simp only [Bool.and_eq_true, decide_eq_true_eq]
      refine ⟨⟨hfq.2, le_of_lt hfq.1.2⟩, ?_⟩
      have hcatq : q.category = some cat.id := hfq.1.1
      have hpostq : (annotate db q).post = q := rfl
      rw [hpostq, hcatq]
      show categoryPublished db cat.id = true
      unfold categoryPublished
      rw [find?_id_of_nodup hnd hcatmem]
      exact hcatpub
  · intro username author l hfind hl p hp hauthor
    unfold profileGetQueryset profileRecords at hl
    rw [hfind] at hl
    obtain rfl : _ = l := by simpa using hl
    refine mem_order_by.mpr (List.mem_map.mpr ⟨p, ?_, rfl⟩)
    exact List.mem_filter.mpr ⟨hp, by simp [hauthor]⟩

/-- Witness for `listing_visibility`: one published and one unpublished post
by the same author; the index shows only the published one, the profile
shows both. -/
def c2wdb : DB :=
  ⟨[⟨1, "alice"⟩, ⟨2, "bob"⟩], [⟨1, "cat", true⟩],
   [⟨1, 1, some 1, true, 0⟩, ⟨2, 1, none, false, 3⟩], []⟩

theorem listing_visibility_witness :
    publiclyVisibleSpec c2wdb
      (⟨⟨1, 1, some 1, true, 0⟩, 0⟩ : AnnotatedPost).post 5 = true ∧
    publiclyVisibleSpec c2wdb
      (⟨⟨1, 1, some 1, true, 0⟩, 0⟩ : AnnotatedPost).post 5 = true ∧
    annotate c2wdb ⟨2, 1, none, false, 3⟩ ∈
      [⟨⟨2, 1, none, false, 3⟩, 0⟩, ⟨⟨1, 1, some 1, true, 0⟩, 0⟩] :=
  ⟨(listing_visibility c2wdb 5).1 ⟨⟨1, 1, some 1, true, 0⟩, 0⟩ (by decide),
   (listing_visibility c2wdb 5).2.1 "cat" [⟨⟨1, 1, some 1, true, 0⟩, 0⟩]
     (by decide) (by decide) ⟨⟨1, 1, some 1, true, 0⟩, 0⟩ (by decide),
   (listing_visibility c2wdb 5).2.2 "alice" ⟨1, "alice"⟩
     [⟨⟨2, 1, none, false, 3⟩, 0⟩, ⟨⟨1, 1, some 1, true, 0⟩, 0⟩]
     (by decide) (by decide) ⟨2, 1, none, false, 3⟩ (by decide) (by decide)⟩

/-! ### C7: ordering and stability of the listings -/

/-- The same store with the post table's insertion order reversed. -/
def reversePostsDB (db : DB) : DB :=
  { db with posts := db.posts.reverse }

/-- Reversing the post table reverses each scope's record list. -/
lemma scopeRecords_reverse (db : DB) (now : Int) (scope : Scope) :
    scopeRecords (reversePostsDB db) now scope =
      (scopeRecords db now scope).map List.reverse := by
  cases scope with
  | index =>
    unfold scopeRecords indexRecords reversePostsDB
    dsimp only
    rw [List.filter_reverse, List.map_reverse]
    rfl
  | category slug =>
    unfold scopeRecords categoryRecords reversePostsDB
    dsimp only
    cases hf : db.categories.find? (fun c => c.slug == slug && c.is_published) with
    | none => rfl
    | some cat =>
      simp only [Option.map_some']
      rw [List.filter_reverse, List.map_reverse]
      rfl
  | profile username =>
    unfold scopeRecords profileRecords reversePostsDB
    dsimp only
    cases hf : db.users.find? (fun u => u.username == username) with
    | none => rfl
    | some author =>
      simp only [Option.map_some']
      rw [List.filter_reverse, List.map_reverse]
      rfl

/-- A record list with pairwise distinct `pub_date`s has a unique descending
reordering, so sorting it and sorting its reverse agree. -/
lemma order_reverse_of_distinct {pre : List AnnotatedPost}
    (hdist : pre.Pairwise (fun a b => a.post.pub_date ≠ b.post.pub_date)) :
    order_by_pub_date_desc pre.reverse = order_by_pub_date_desc pre := by
  have hperm1 : (order_by_pub_date_desc pre.reverse).Perm pre :=
    (List.perm_insertionSort pubDateGE pre.reverse).trans (List.reverse_perm pre)
  have hperm2 : (order_by_pub_date_desc pre).Perm pre :=
    List.perm_insertionSort pubDateGE pre
  have hd1 : (order_by_pub_date_desc pre.reverse).Pairwise
      (fun a b => a.post.pub_date ≠ b.post.pub_date) :=
    (hperm1.pairwise_iff (fun h => h.symm)).mpr hdist
  have hd2 : (order_by_pub_date_desc pre).Pairwise
      (fun a b => a.post.pub_date ≠ b.post.pub_date) :=
    (hperm2.pairwise_iff (fun h => h.symm)).mpr hdist
  have hge1 : (order_by_pub_date_desc pre.reverse).Pairwise pubDateGE :=
    List.sorted_insertionSort pubDateGE pre.reverse
  have hge2 : (order_by_pub_date_desc pre).Pairwise pubDateGE :=
    List.sorted_insertionSort pubDateGE pre
  have hs1 : (order_by_pub_date_desc pre.reverse).Pairwise pubDateGT :=
    (hge1.and hd1).imp (fun h => lt_of_le_of_ne h.1 h.2.symm)
  have hs2 : (order_by_pub_date_desc pre).Pairwise pubDateGT :=
    (hge2.and hd2).imp (fun h => lt_of_le_of_ne h.1 h.2.symm)
  exact List.eq_of_perm_of_sorted (hperm1.trans hperm2.symm) hs1 hs2

/-- C7: every listing is sorted descending by `pub_date`; the sort is
stable (records with equal `pub_date` keep the backing store's relative
order); between distinct `pub_date`s the output order is forced by the
dates, and when all `pub_date`s are distinct, reversing the backing post
table does not change the listing at all. -/
theorem listVisiblePosts_sorted_stable (db : DB) (now : Int) (scope : Scope)
    (pre : List AnnotatedPost)
    (hpre : scopeRecords db now scope = some pre) :
    listVisiblePosts db now scope = some (order_by_pub_date_desc pre) ∧
    (order_by_pub_date_desc pre).Pairwise pubDateGE ∧
    (∀ a b : AnnotatedPost, a.post.pub_date = b.post.pub_date →
      List.Sublist [a, b] pre → List.Sublist [a, b] (order_by_pub_date_desc pre)) ∧
    (∀ a b : AnnotatedPost, List.Sublist [a, b] (order_by_pub_date_desc pre) →
      a.post.pub_date ≠ b.post.pub_date → b.post.pub_date < a.post.pub_date) ∧
    (pre.Pairwise (fun a b => a.post.pub_date ≠ b.post.pub_date) →
      listVisiblePosts (reversePostsDB db) now scope = listVisiblePosts db now scope) := by
  refine ⟨?_, ?_, ?_, ?_, ?_⟩
  · unfold listVisiblePosts
    rw [hpre]
    rfl
  · exact List.sorted_insertionSort pubDateGE pre
  · intro a b heq hsub
    exact List.pair_sublist_insertionSort (le_of_eq heq.symm) hsub
  · intro a b hsub hne
    have hpair : List.Pairwise pubDateGE [a, b] :=
      List.Pairwise.sublist hsub (List.sorted_insertionSort pubDateGE pre)
    have hge : pubDateGE a b :=
      List.rel_of_pairwise_cons hpair (List.mem_singleton.mpr rfl)
    exact lt_of_le_of_ne hge hne.symm
  · intro hdist
    unfold listVisiblePosts
    rw [scopeRecords_reverse, hpre]
    simp only [Option.map_some']
    rw [order_reverse_of_distinct hdist]

/-- Witness for `listVisiblePosts_sorted_stable`: a two-post index scope. -/
def c7db : DB :=
  ⟨[⟨1, "alice"⟩], [⟨1, "c", true⟩],
   [⟨1, 1, some 1, true, 2⟩, ⟨2, 1, some 1, true, 7⟩], []⟩

theorem listVisiblePosts_sorted_stable_witness :
    listVisiblePosts c7db 10 .index =
      some (order_by_pub_date_desc (indexRecords c7db 10)) ∧
    (order_by_pub_date_desc (indexRecords c7db 10)).Pairwise pubDateGE ∧
    (∀ a b : AnnotatedPost, a.post.pub_date = b.post.pub_date →
      List.Sublist [a, b] (indexRecords c7db 10) →
      List.Sublist [a, b] (order_by_pub_date_desc (indexRecords c7db 10))) ∧
    (∀ a b : AnnotatedPost,
      List.Sublist [a, b] (order_by_pub_date_desc (indexRecords c7db 10)) →
      a.post.pub_date ≠ b.post.pub_date → b.post.pub_date < a.post.pub_date) ∧
    ((indexRecords c7db 10).Pairwise (fun a b => a.post.pub_date ≠ b.post.pub_date) →
      listVisiblePosts (reversePostsDB c7db) 10 .index = listVisiblePosts c7db 10 .index) :=
  listVisiblePosts_sorted_stable c7db 10 .index (indexRecords c7db 10) rfl

end Blogicum
